import Mathlib

/-!
Verification of the DeFi position normalizer and alternative ranker of
`src/streamlit_app.py`, namely the functions `process_defi_data` and
`get_alternatives_for_token`.

The Python functions operate on dynamically typed JSON-like values, so the
embedding works over an inductive type `PyVal` of Python values.  Fallible
Python operations are embedded in `Except PyErr`; the `try/except
(ValueError, TypeError)` blocks of the source become `catchVT`, which absorbs
exactly those two exception classes and propagates every other one
(`AttributeError`, `KeyError`, ...), as CPython does.

Modelling conventions (documented at the definitions concerned):
* Python floats are modelled as exact rationals (`Rat`).
* `float(str)` is modelled for plain decimal literals (optional sign, digits,
  at most one decimal point); exponents, `inf`/`nan` and surrounding
  whitespace are not modelled, and none of the payloads reasoned about below
  uses them.
* Python dicts are association lists with (as in Python) unique keys.
-/

/-- Dynamically typed Python/JSON values, as manipulated by the source. -/
inductive PyVal where
  | none : PyVal
  | bool : Bool → PyVal
  | int : Int → PyVal
  | float : Rat → PyVal
  | str : String → PyVal
  | list : List PyVal → PyVal
  | dict : List (String × PyVal) → PyVal
deriving Repr, Inhabited

/-- The Python exception classes that the embedded code can raise. -/
inductive PyErr where
  | typeError : PyErr
  | valueError : PyErr
  | attributeError : PyErr
  | keyError : String → PyErr
deriving Repr, DecidableEq

/-- First-match lookup in a dict, i.e. Python `d[k]` when the key exists. -/
def dictFind (kvs : List (String × PyVal)) (k : String) : Option PyVal :=
  List.lookup k kvs

/-- Python `d.get(k, dflt)` on a dict. -/
def dictGet (kvs : List (String × PyVal)) (k : String) (dflt : PyVal) : PyVal :=
  (dictFind kvs k).getD dflt

/-- Python truthiness (`bool(v)`). -/
def pyTruthy : PyVal → Bool
  | .none => false
  | .bool b => b
  | .int n => n != 0
  | .float q => q != 0
  | .str s => s != ""
  | .list xs => !xs.isEmpty
  | .dict kvs => !kvs.isEmpty

/-- Python iteration `for x in v`: lists yield their elements, strings their
one-character substrings, dicts their keys; scalars raise `TypeError`. -/
def pyIter : PyVal → Except PyErr (List PyVal)
  | .list xs => .ok xs
  | .str s => .ok (s.toList.map (fun c => .str (String.mk [c])))
  | .dict kvs => .ok (kvs.map (fun kv => .str kv.1))
  | _ => .error .typeError

/-- Whether the character list `needle` occurs at the head of `hay`. -/
def leadMatch : List Char → List Char → Bool
  | [], _ => true
  | _ :: _, [] => false
  | a :: as, b :: bs => a == b && leadMatch as bs

/-- Whether `needle` occurs contiguously anywhere inside `hay`
(Python `needle in hay` on strings). -/
def hasSub (needle : List Char) : List Char → Bool
  | [] => needle.isEmpty
  | c :: cs => leadMatch needle (c :: cs) || hasSub needle cs

/-- Python equality of a value against the string `k` (a string never equals
a value of another type). -/
def isStrEq (k : String) : PyVal → Bool
  | .str s => s == k
  | _ => false

/-- Python `k in v` for a string key `k`: key membership for dicts, element
membership for lists, substring test for strings; `TypeError` otherwise. -/
def pyContains (v : PyVal) (k : String) : Except PyErr Bool :=
  match v with
  | .dict kvs => .ok (dictFind kvs k).isSome
  | .list xs => .ok (xs.any (isStrEq k))
  | .str s => .ok (hasSub k.toList s.toList)
  | _ => .error .typeError

/-- Python `v[k]` for a string key `k`: dict lookup (raising `KeyError` when
absent); subscripting any non-dict with a string raises `TypeError`. -/
def pySubscript (v : PyVal) (k : String) : Except PyErr PyVal :=
  match v with
  | .dict kvs =>
      match dictFind kvs k with
      | some x => .ok x
      | Option.none => .error (.keyError k)
  | _ => .error .typeError

/-- Python `v.get(k, dflt)`: only dicts have a `get` attribute, every other
value raises `AttributeError`. -/
def tokGet (v : PyVal) (k : String) (dflt : PyVal) : Except PyErr PyVal :=
  match v with
  | .dict kvs => .ok (dictGet kvs k dflt)
  | _ => .error .attributeError

/-- Decimal digit run predicate used by the float parser. -/
def allDigits (cs : List Char) : Bool :=
  cs.all Char.isDigit

/-- Value of a decimal digit run. -/
def decVal (cs : List Char) : Nat :=
  cs.foldl (fun a c => 10 * a + (c.toNat - 48)) 0

/-- Unsigned decimal literal: `123`, `123.456`, `.5`, `5.`. -/
def parseDecimal (cs : List Char) : Option Rat :=
  match List.splitOn '.' cs with
  | [w] =>
      if !w.isEmpty && allDigits w then some ((decVal w : Int) : Rat)
      else Option.none
  | [w, f] =>
      if (allDigits w && allDigits f) && (!w.isEmpty || !f.isEmpty) then
        some ((decVal w : Rat) + (decVal f : Rat) / ((10 : Rat) ^ f.length))
      else Option.none
  | _ => Option.none

/-- Python `float(s)` on a string, for plain decimal literals with an optional
sign (see the module comment for the modelling scope). -/
def parsePyFloat (s : String) : Option Rat :=
  match s.toList with
  | '+' :: rest => parseDecimal rest
  | '-' :: rest => (parseDecimal rest).map (fun q => -q)
  | cs => parseDecimal cs

/-- Python `float(v)`: numbers and bools coerce, strings parse as decimal
literals (`ValueError` on failure), everything else raises `TypeError`. -/
def pyFloat : PyVal → Except PyErr Rat
  | .bool b => .ok (if b then 1 else 0)
  | .int n => .ok ((n : Rat))
  | .float q => .ok q
  | .str s =>
      match parsePyFloat s with
      | some q => .ok q
      | Option.none => .error .valueError
  | .none => .error .typeError
  | .list _ => .error .typeError
  | .dict _ => .error .typeError

/-- Python `str(v)`.  Scalars follow CPython (`None`, `True`, decimal
integers, the string itself).  The renderings of floats and containers are
abstracted (exact rational / a length tag): the embedded functions only apply
`str` to symbol, chain and module fields, which are strings in every payload
a claim below mentions, and no claim depends on the rendering of any other
shape. -/
def pyStr : PyVal → String
  | .none => "None"
  | .bool true => "True"
  | .bool false => "False"
  | .int n => toString n
  | .float q => toString q
  | .str s => s
  | .list xs => "<list:" ++ toString xs.length ++ ">"
  | .dict kvs => "<dict:" ++ toString kvs.length ++ ">"

/-- Run an action, absorbing `ValueError` and `TypeError` into `Option.none`
(the Python `try: ... except (ValueError, TypeError): continue` pattern) and
propagating every other exception. -/
def catchVT {α : Type} (act : Except PyErr α) : Except PyErr (Option α) :=
  match act with
  | .ok a => .ok (some a)
  | .error .valueError => .ok Option.none
  | .error .typeError => .ok Option.none
  | .error e => .error e

/-- One row of the normalized position table built by `process_defi_data`. -/
structure Row where
  chain : String
  common_name : String
  module : String
  token_symbol : String
  balance_usd : Rat
deriving Repr, DecidableEq, Inhabited

/-- Round half to even (the rounding of Python `round` and pandas `.round`,
here on exact decimals). -/
def roundHalfEven (q : Rat) : Int :=
  if q - (⌊q⌋ : Rat) < 1 / 2 then ⌊q⌋
  else if (1 / 2 : Rat) < q - (⌊q⌋ : Rat) then ⌊q⌋ + 1
  else if ⌊q⌋ % 2 = 0 then ⌊q⌋ else ⌊q⌋ + 1

/-- Rounding to 6 fractional digits, i.e. `Series.round(6)`. -/
def round6 (q : Rat) : Rat :=
  ((roundHalfEven (q * 1000000) : Rat)) / 1000000

/-- Body of the liquidity-pool `try` block (source lines 139-151): coerce both
tokens' `balance` and `balanceUSD`, then build the single merged row.  The
`.get` calls raise `AttributeError` on non-dict tokens; `float` raises
`ValueError`/`TypeError`, which the caller absorbs. -/
def procLPBody (t0 t1 : PyVal) (chain cn moduleName : String) :
    Except PyErr Row := do
  let b0 ← tokGet t0 "balance" (.int 0)
  let _ ← pyFloat b0
  let b1 ← tokGet t1 "balance" (.int 0)
  let _ ← pyFloat b1
  let u0v ← tokGet t0 "balanceUSD" (.int 0)
  let u0 ← pyFloat u0v
  let u1v ← tokGet t1 "balanceUSD" (.int 0)
  let u1 ← pyFloat u1v
  let s0 ← tokGet t0 "tokenSymbol" (.str "")
  let s1 ← tokGet t1 "tokenSymbol" (.str "")
  pure ⟨chain, cn, moduleName, pyStr s0 ++ "/" ++ pyStr s1, u0 + u1⟩

/-- Body of the single-token `try` block (source lines 156-163). -/
def procTokenBody (tok : PyVal) (chain cn moduleName : String) :
    Except PyErr Row := do
  let s ← tokGet tok "tokenSymbol" (.str "")
  let bv ← tokGet tok "balanceUSD" (.int 0)
  let b ← pyFloat bv
  pure ⟨chain, cn, moduleName, pyStr s, b⟩

/-- The `for token in supply_tokens` loop of the single-token case. -/
def procTokens (chain cn moduleName : String) :
    List PyVal → Except PyErr (List Row)
  | [] => .ok []
  | t :: ts => do
      match ← catchVT (procTokenBody t chain cn moduleName) with
      | some r => do
          let rest ← procTokens chain cn moduleName ts
          pure (r :: rest)
      | Option.none => procTokens chain cn moduleName ts

/-- Processing of a supply list (source lines 138-165): merge the first two
tokens when the module is a liquidity pool with at least two supply entries,
otherwise one row per token. -/
def procSupply (chain cn moduleName : String) (toks : List PyVal) :
    Except PyErr (List Row) :=
  if moduleName == "Liquidity Pool" && decide (2 ≤ toks.length) then
    match toks with
    | t0 :: t1 :: _ => do
        match ← catchVT (procLPBody t0 t1 chain cn moduleName) with
        | some r => pure [r]
        | Option.none => pure []
    | _ => pure []
  else
    procTokens chain cn moduleName toks

/-- Processing of one portfolio module (source lines 131-165).  Iterating a
non-dict module raises `AttributeError` at `portfolio.get`; a present
`detailed` value that is not a dict raises `TypeError` at `'supply' in` or at
the string subscript, exactly as in Python. -/
def procModule (chain cn : String) (portfolio : PyVal) :
    Except PyErr (List Row) :=
  match portfolio with
  | .dict kvs => do
      let moduleName := pyStr (dictGet kvs "module" (.str ""))
      match dictFind kvs "detailed" with
      | Option.none => pure []
      | some det => do
          let hs ← pyContains det "supply"
          if hs then do
            let supply ← pySubscript det "supply"
            match supply with
            | .list toks => procSupply chain cn moduleName toks
            | _ => pure []
          else
            pure []
  | _ => .error .attributeError

/-- The `for portfolio in protocol.get('portfolio', [])` loop. -/
def procModules (chain cn : String) : List PyVal → Except PyErr (List Row)
  | [] => .ok []
  | p :: ps => do
      let rows ← procModule chain cn p
      let rest ← procModules chain cn ps
      pure (rows ++ rest)

/-- Processing of one protocol entry (source lines 126-165). -/
def procProtocol (protocol : PyVal) : Except PyErr (List Row) :=
  match protocol with
  | .dict kvs => do
      let chain := pyStr (dictGet kvs "chain" (.str ""))
      let cn := pyStr (dictGet kvs "commonName" (.str ""))
      let ports ← pyIter (dictGet kvs "portfolio" (.list []))
      procModules chain cn ports
  | _ => .error .attributeError

/-- The `for protocol in result` loop. -/
def procProtocols : List PyVal → Except PyErr (List Row)
  | [] => .ok []
  | p :: ps => do
      let rows ← procProtocol p
      let rest ← procProtocols ps
      pure (rows ++ rest)

/-- Embedding of `process_defi_data` (source lines 120-187).  The final
DataFrame steps act on rows whose `balance_usd` is already a float, so
`pd.to_numeric(..., errors=coerce).fillna(0)` is the identity there; the
remaining steps are the `> 5` filter followed by rounding to 6 digits. -/
def process_defi_data (result : PyVal) : Except PyErr (List Row) :=
  if !pyTruthy result || !(result matches .list _) then .ok []
  else
    match result with
    | .list protocols => do
        let data ← procProtocols protocols
        pure (((data.filter (fun r => decide (5 < r.balance_usd))).map
          (fun r => { r with balance_usd := round6 r.balance_usd })))
    | _ => .ok []

/-- One entry of the alternatives list built by `get_alternatives_for_token`:
the dict appended at source lines 86-92.  `symbol` is a `String` because the
match test has already applied `.upper()` to it by the time it is stored. -/
structure Alt where
  symbol : String
  project : PyVal
  chain : PyVal
  apy : PyVal
  tvlUsd : PyVal
deriving Repr, Inhabited

/-- Python `s.upper()` (ASCII-faithful; the Unicode special cases of
`str.upper` do not arise in token symbols). -/
def pyUpper (s : String) : String :=
  String.mk (s.toList.map Char.toUpper)

/-- Python `s.split(sep)` for a one-character separator (`"".split` yields
`[""]`, a trailing separator yields a trailing `""`, as in Python). -/
def pySplit (s : String) (sep : Char) : List String :=
  (List.splitOn sep s.toList).map String.mk

/-- The match test of source line 85:
`any(token.upper() in pool[symbol].upper() for token in tokens)`. -/
def symMatch (tokens : List String) (sym : String) : Bool :=
  tokens.any (fun t => hasSub (pyUpper t).toList (pyUpper sym).toList)

/-- Processing of one pool inside the `for pool in llama_data` loop (source
lines 83-92): a non-dict pool raises `TypeError` at `pool[symbol]`, a missing
`symbol` key raises `KeyError`, a non-string symbol raises `AttributeError`
at `.upper()`, and a matched pool with `project` or `chain` missing raises
`KeyError`; `apy` and `tvlUsd` default to `0` via `.get`. -/
def poolAlt (tokens : List String) (pool : PyVal) :
    Except PyErr (Option Alt) :=
  match pool with
  | .dict kvs => do
      let symV ← pySubscript (.dict kvs) "symbol"
      match symV with
      | .str sym =>
          if symMatch tokens sym then do
            let proj ← pySubscript (.dict kvs) "project"
            let ch ← pySubscript (.dict kvs) "chain"
            pure (some ⟨sym, proj, ch, dictGet kvs "apy" (.int 0),
                        dictGet kvs "tvlUsd" (.int 0)⟩)
          else
            pure Option.none
      | _ => .error .attributeError
  | _ => .error .typeError

/-- The selection loop of source lines 82-92, in input order. -/
def selectAlts (tokens : List String) : List PyVal → Except PyErr (List Alt)
  | [] => .ok []
  | p :: ps => do
      match ← poolAlt tokens p with
      | some a => do
          let rest ← selectAlts tokens ps
          pure (a :: rest)
      | Option.none => selectAlts tokens ps

/-- Numeric reading of a stored `apy` value, when it is a number
(Python compares bools and numbers freely: `True` counts as `1`). -/
def pyNum (v : PyVal) : Option Rat :=
  match v with
  | .bool b => some (if b then 1 else 0)
  | .int n => some ((n : Rat))
  | .float q => some q
  | _ => Option.none

/-- Sort key of source line 95 (`key=lambda x: x[apy]`), read as a rational;
only applied under the guard that every stored apy is numeric. -/
def apyKey (a : Alt) : Rat :=
  (pyNum a.apy).getD 0

/-- Descending comparison on the sort keys (`reverse=True`). -/
def apyGe (a b : Alt) : Bool :=
  decide (apyKey b ≤ apyKey a)

/-- Embedding of `alternatives.sort(key=lambda x: x[apy], reverse=True)`
followed by `alternatives[:n]` (source lines 95-96).  Python's Timsort is a
stable sort, realised here by the stable `List.mergeSort`.  Timsort raises
`TypeError` when it compares two incomparable keys; this is modelled as
raising whenever at least two candidates exist and some stored apy is not a
number.  (CPython can avoid the raise when the offending pair is never
compared, and an all-string key list sorts lexicographically; no claim below
touches either situation.) -/
def sortTake (n : Nat) (alts : List Alt) : Except PyErr (List Alt) :=
  if alts.length ≤ 1 then .ok (alts.take n)
  else if alts.all (fun a => (pyNum a.apy).isSome) then
    .ok ((alts.mergeSort apyGe).take n)
  else .error .typeError

/-- Selection stage of `get_alternatives_for_token` (source lines 76-92):
the guard clause followed by the pool loop. -/
def selection (token_symbol : String) (llama_data : PyVal) :
    Except PyErr (List Alt) :=
  if !pyTruthy llama_data then .ok []
  else do
    let hasData ← pyContains llama_data "data"
    if !hasData then .ok []
    else do
      let dataV ← pySubscript llama_data "data"
      let pools ← pyIter dataV
      selectAlts (pySplit token_symbol '/') pools

/-- Embedding of `get_alternatives_for_token` (source lines 72-96):
selection, then descending stable sort by apy, then truncation to `n`. -/
def get_alternatives_for_token (token_symbol : String) (llama_data : PyVal)
    (n : Nat := 3) : Except PyErr (List Alt) := do
  let alts ← selection token_symbol llama_data
  sortTake n alts

/-! ### Well-formedness predicates

Sufficient structural conditions under which the embedded functions cannot
raise: each layer of the payload is a dict where the source calls `.get` or
subscripts with a string key.  These are the shapes the positions and yield
endpoints document. -/

/-- A supply entry the source can read fields from: a dict. -/
def wfToken (t : PyVal) : Bool :=
  t matches .dict _

/-- A portfolio module entry that cannot make the module loop raise:
a dict whose `detailed` value, when present, is itself a dict, and whose
`detailed.supply` entries, when `supply` is a list, are dicts. -/
def wfModuleVal (p : PyVal) : Bool :=
  match p with
  | .dict kvs =>
      match dictFind kvs "detailed" with
      | Option.none => true
      | some (.dict dkvs) =>
          match dictFind dkvs "supply" with
          | some (.list toks) => toks.all wfToken
          | some _ => true
          | Option.none => true
      | some _ => false
  | _ => false

/-- A protocol entry that cannot make the normalizer raise: a dict whose
`portfolio` value, when present, is a list of well-formed modules. -/
def wfProtocolVal (p : PyVal) : Bool :=
  match p with
  | .dict kvs =>
      match dictFind kvs "portfolio" with
      | Option.none => true
      | some (.list ps) => ps.all wfModuleVal
      | some _ => false
  | _ => false

/-- A raw payload on which `process_defi_data` cannot raise: either not a
list (returned empty immediately) or a list of well-formed protocol
entries. -/
def wfPayload (v : PyVal) : Bool :=
  match v with
  | .list ps => ps.all wfProtocolVal
  | _ => true

/-- A yield pool entry on which the selection loop cannot raise: a dict with
a string `symbol` and with `project` and `chain` present. -/
def wfPoolSel (p : PyVal) : Bool :=
  match p with
  | .dict kvs =>
      (match dictFind kvs "symbol" with
       | some (.str _) => true
       | _ => false) &&
      (dictFind kvs "project").isSome &&
      (dictFind kvs "chain").isSome
  | _ => false

/-- A yield pool entry on which the whole ranker cannot raise: selection
well-formed and `apy`, when present, a number. -/
def wfPool (p : PyVal) : Bool :=
  wfPoolSel p &&
  (match p with
   | .dict kvs =>
       (match dictFind kvs "apy" with
        | Option.none => true
        | some a => (pyNum a).isSome)
   | _ => false)

/-- Projection of a selected pool dict onto its alternatives entry: the dict
built at source lines 86-92 (under `wfPoolSel`, the `getD` defaults for
`project` and `chain` are never used). -/
def poolProj (kvs : List (String × PyVal)) (sym : String) : Alt :=
  ⟨sym, (dictFind kvs "project").getD .none, (dictFind kvs "chain").getD .none,
   dictGet kvs "apy" (.int 0), dictGet kvs "tvlUsd" (.int 0)⟩

/-- Total projection of a pool value (meaningful under `wfPoolSel`). -/
def poolProjV (p : PyVal) : Alt :=
  match p with
  | .dict kvs =>
      match dictFind kvs "symbol" with
      | some (.str sym) => poolProj kvs sym
      | _ => default
  | _ => default

/-! ### Helper lemmas -/

/-- The only exceptions `float` can raise are `ValueError` and `TypeError`,
which the `try` blocks of the normalizer absorb. -/
theorem pyFloat_error {v : PyVal} {e : PyErr} (h : pyFloat v = .error e) :
    e = .valueError ∨ e = .typeError := by
  cases v <;> simp [pyFloat] at h <;> try exact Or.inr h.symm
  case str s =>
    cases hp : parsePyFloat s <;> simp [hp] at h
    exact Or.inl h.symm

/-- Unfolding of the single-token body on a dict token: only the `balanceUSD`
coercion can fail. -/
theorem procTokenBody_dict (k : List (String × PyVal)) (c cn m : String) :
    procTokenBody (.dict k) c cn m =
      (pyFloat (dictGet k "balanceUSD" (.int 0))).bind
        (fun b => .ok ⟨c, cn, m, pyStr (dictGet k "tokenSymbol" (.str "")), b⟩) := by
  cases h : pyFloat (dictGet k "balanceUSD" (.int 0)) <;>
    simp [procTokenBody, tokGet, h, bind, Except.bind, pure, Except.pure]

/-- On a dict token, the guarded single-token body never raises. -/
theorem catch_procTokenBody_dict (k : List (String × PyVal)) (c cn m : String) :
    ∃ o, catchVT (procTokenBody (.dict k) c cn m) = .ok o := by
  rw [procTokenBody_dict]
  cases h : pyFloat (dictGet k "balanceUSD" (.int 0)) with
  | ok b =>
      exact ⟨some ⟨c, cn, m, pyStr (dictGet k "tokenSymbol" (.str "")), b⟩,
        by simp [Except.bind, catchVT]⟩
  | error e =>
      rcases pyFloat_error h with he | he <;> subst he <;>
        exact ⟨Option.none, by simp [Except.bind, catchVT]⟩

/-- On a list of dict tokens, the single-token loop never raises. -/
theorem procTokens_ok (c cn m : String) (ts : List PyVal)
    (h : ∀ t ∈ ts, wfToken t = true) :
    ∃ rows, procTokens c cn m ts = .ok rows := by
  induction ts with
  | nil => exact ⟨[], rfl⟩
  | cons t ts ih =>
      have ht : wfToken t = true := h t (List.mem_cons_self t ts)
      obtain ⟨k, rfl⟩ : ∃ k, t = .dict k := by
        cases t <;> simp [wfToken] at ht
        exact ⟨_, rfl⟩
      obtain ⟨rows, hrows⟩ := ih (fun x hx => h x (List.mem_cons_of_mem _ hx))
      obtain ⟨o, ho⟩ := catch_procTokenBody_dict k c cn m
      cases o with
      | some r =>
          exact ⟨r :: rows,
            by simp [procTokens, ho, hrows, bind, Except.bind, pure, Except.pure]⟩
      | none =>
          exact ⟨rows,
            by simp [procTokens, ho, hrows, bind, Except.bind, pure, Except.pure]⟩

/-- Unfolding of the liquidity-pool body on two dict tokens: only the four
`float` coercions can fail. -/
theorem procLPBody_dict (k0 k1 : List (String × PyVal)) (c cn m : String) :
    procLPBody (.dict k0) (.dict k1) c cn m =
      (pyFloat (dictGet k0 "balance" (.int 0))).bind (fun _ =>
      (pyFloat (dictGet k1 "balance" (.int 0))).bind (fun _ =>
      (pyFloat (dictGet k0 "balanceUSD" (.int 0))).bind (fun u0 =>
      (pyFloat (dictGet k1 "balanceUSD" (.int 0))).bind (fun u1 =>
      .ok ⟨c, cn, m,
        pyStr (dictGet k0 "tokenSymbol" (.str "")) ++ "/" ++
          pyStr (dictGet k1 "tokenSymbol" (.str "")),
        u0 + u1⟩)))) :=
  rfl

/-- On two dict tokens, the guarded liquidity-pool body never raises. -/
theorem catch_procLPBody_dict (k0 k1 : List (String × PyVal)) (c cn m : String) :
    ∃ o, catchVT (procLPBody (.dict k0) (.dict k1) c cn m) = .ok o := by
  rw [procLPBody_dict]
  cases h0 : pyFloat (dictGet k0 "balance" (.int 0)) with
  | error e =>
      rcases pyFloat_error h0 with he | he <;> subst he <;>
        exact ⟨Option.none, by simp [Except.bind, catchVT]⟩
  | ok b0 =>
    cases h1 : pyFloat (dictGet k1 "balance" (.int 0)) with
    | error e =>
        rcases pyFloat_error h1 with he | he <;> subst he <;>
          exact ⟨Option.none, by simp [Except.bind, catchVT]⟩
    | ok b1 =>
      cases h2 : pyFloat (dictGet k0 "balanceUSD" (.int 0)) with
      | error e =>
          rcases pyFloat_error h2 with he | he <;> subst he <;>
            exact ⟨Option.none, by simp [Except.bind, catchVT]⟩
      | ok u0 =>
        cases h3 : pyFloat (dictGet k1 "balanceUSD" (.int 0)) with
        | error e =>
            rcases pyFloat_error h3 with he | he <;> subst he <;>
              exact ⟨Option.none, by simp [Except.bind, catchVT]⟩
        | ok u1 =>
            exact ⟨some ⟨c, cn, m,
              pyStr (dictGet k0 "tokenSymbol" (.str "")) ++ "/" ++
                pyStr (dictGet k1 "tokenSymbol" (.str "")), u0 + u1⟩,
              by simp [Except.bind, catchVT]⟩

/-- On a supply list of dict tokens, supply processing never raises. -/
theorem procSupply_ok (c cn m : String) (toks : List PyVal)
    (h : ∀ t ∈ toks, wfToken t = true) :
    ∃ rows, procSupply c cn m toks = .ok rows := by
  cases hc : (m == "Liquidity Pool" && decide (2 ≤ toks.length)) with
  | false =>
      obtain ⟨rows, hrows⟩ := procTokens_ok c cn m toks h
      exact ⟨rows, by simp [procSupply, hc, hrows]⟩
  | true =>
      cases toks with
      | nil => simp at hc
      | cons t0 ts =>
        cases ts with
        | nil => simp at hc
        | cons t1 rest =>
            have h0 : wfToken t0 = true := h t0 (by simp)
            have h1 : wfToken t1 = true := h t1 (by simp)
            obtain ⟨k0, rfl⟩ : ∃ k, t0 = .dict k := by
              cases t0 <;> simp [wfToken] at h0
              exact ⟨_, rfl⟩
            obtain ⟨k1, rfl⟩ : ∃ k, t1 = .dict k := by
              cases t1 <;> simp [wfToken] at h1
              exact ⟨_, rfl⟩
            have hm : m = "Liquidity Pool" := by
              have hc2 := hc
              simp at hc2
              exact hc2
            subst hm
            obtain ⟨o, ho⟩ := catch_procLPBody_dict k0 k1 c cn "Liquidity Pool"
            cases o with
            | some r =>
                exact ⟨[r], by simp [procSupply, hc, ho, bind, Except.bind,
                  pure, Except.pure]⟩
            | none =>
                exact ⟨[], by simp [procSupply, hc, ho, bind, Except.bind,
                  pure, Except.pure]⟩

/-- On a well-formed module value, module processing never raises. -/
theorem procModule_ok (c cn : String) (p : PyVal) (hwf : wfModuleVal p = true) :
    ∃ rows, procModule c cn p = .ok rows := by
  cases p
  case dict kvs =>
    cases hdet : dictFind kvs "detailed" with
    | none => exact ⟨[], by simp [procModule, hdet, pure, Except.pure]⟩
    | some det =>
      cases det
      case dict dkvs =>
        cases hsup : dictFind dkvs "supply" with
        | none =>
            exact ⟨[], by simp [procModule, hdet, pyContains, hsup, bind,
              Except.bind, pure, Except.pure]⟩
        | some sup =>
          cases sup
          case list toks =>
            have htoks : ∀ t ∈ toks, wfToken t = true := by
              have hwf2 := hwf
              simp [wfModuleVal, hdet, hsup, List.all_eq_true] at hwf2
              exact hwf2
            obtain ⟨rows, hrows⟩ :=
              procSupply_ok c cn (pyStr (dictGet kvs "module" (.str ""))) toks htoks
            exact ⟨rows, by simp [procModule, hdet, pyContains, hsup,
              pySubscript, hrows, bind, Except.bind, pure, Except.pure]⟩
          all_goals
            exact ⟨[], by simp [procModule, hdet, pyContains, hsup,
              pySubscript, bind, Except.bind, pure, Except.pure]⟩
      all_goals simp [wfModuleVal, hdet] at hwf
  all_goals simp [wfModuleVal] at hwf

/-- On a list of well-formed module values, the module loop never raises. -/
theorem procModules_ok (c cn : String) (ps : List PyVal)
    (h : ∀ p ∈ ps, wfModuleVal p = true) :
    ∃ rows, procModules c cn ps = .ok rows := by
  induction ps with
  | nil => exact ⟨[], rfl⟩
  | cons p ps ih =>
      obtain ⟨rows, hrows⟩ := procModule_ok c cn p (h p (by simp))
      obtain ⟨rest, hrest⟩ := ih (fun x hx => h x (List.mem_cons_of_mem _ hx))
      exact ⟨rows ++ rest, by simp [procModules, hrows, hrest, bind,
        Except.bind, pure, Except.pure]⟩

/-- On a well-formed protocol entry, protocol processing never raises. -/
theorem procProtocol_ok (p : PyVal) (hwf : wfProtocolVal p = true) :
    ∃ rows, procProtocol p = .ok rows := by
  cases p
  case dict kvs =>
    cases hport : dictFind kvs "portfolio" with
    | none =>
        exact ⟨[], by simp [procProtocol, dictGet, hport, pyIter, procModules,
          bind, Except.bind, pure, Except.pure]⟩
    | some port =>
      cases port
      case list ps =>
        have hps : ∀ x ∈ ps, wfModuleVal x = true := by
          have hwf2 := hwf
          simp [wfProtocolVal, hport, List.all_eq_true] at hwf2
          exact hwf2
        obtain ⟨rows, hrows⟩ :=
          procModules_ok (pyStr ((dictFind kvs "chain").getD (.str "")))
            (pyStr ((dictFind kvs "commonName").getD (.str ""))) ps hps
        exact ⟨rows, by simp [procProtocol, dictGet, hport, pyIter, hrows,
          bind, Except.bind, pure, Except.pure]⟩
      all_goals simp [wfProtocolVal, hport] at hwf
  all_goals simp [wfProtocolVal] at hwf

/-- On a list of well-formed protocol entries, the protocol loop never
raises. -/
theorem procProtocols_ok (ps : List PyVal)
    (h : ∀ p ∈ ps, wfProtocolVal p = true) :
    ∃ rows, procProtocols ps = .ok rows := by
  induction ps with
  | nil => exact ⟨[], rfl⟩
  | cons p ps ih =>
      obtain ⟨rows, hrows⟩ := procProtocol_ok p (h p (by simp))
      obtain ⟨rest, hrest⟩ := ih (fun x hx => h x (List.mem_cons_of_mem _ hx))
      exact ⟨rows ++ rest, by simp [procProtocols, hrows, hrest, bind,
        Except.bind, pure, Except.pure]⟩

/-- Success of `process_defi_data` always produces the filtered, rounded
image of the collected row list (or the empty table). -/
theorem process_defi_data_shape {v : PyVal} {rows : List Row}
    (h : process_defi_data v = .ok rows) :
    rows = [] ∨ ∃ ps data, v = .list ps ∧ procProtocols ps = .ok data ∧
      rows = (data.filter (fun r => decide (5 < r.balance_usd))).map
        (fun r => { r with balance_usd := round6 r.balance_usd }) := by
  cases v
  case list ps =>
    cases ps with
    | nil =>
        left
        have h0 : process_defi_data (.list []) = Except.ok ([] : List Row) := rfl
        rw [h0] at h
        injection h with h2
        exact h2.symm
    | cons p ps =>
        cases hdata : procProtocols (p :: ps) with
        | error e => simp [process_defi_data, pyTruthy, hdata, bind,
            Except.bind] at h
        | ok data =>
            right
            refine ⟨p :: ps, data, rfl, hdata, ?_⟩
            simp [process_defi_data, pyTruthy, hdata, bind, Except.bind,
              pure, Except.pure] at h
            exact h.symm
  all_goals
    left
    simp [process_defi_data] at h
    exact h

/-- On a well-formed payload, the normalizer always returns a table. -/
theorem process_defi_data_wf_ok (v : PyVal) (hwf : wfPayload v = true) :
    ∃ rows, process_defi_data v = .ok rows := by
  cases v
  case list ps =>
    cases ps with
    | nil => exact ⟨[], rfl⟩
    | cons p ps =>
        have hall : ∀ x ∈ (p :: ps), wfProtocolVal x = true := by
          simpa [wfPayload, List.all_eq_true] using hwf
        obtain ⟨data, hdata⟩ := procProtocols_ok (p :: ps) hall
        exact ⟨(data.filter (fun r => decide (5 < r.balance_usd))).map
            (fun r => { r with balance_usd := round6 r.balance_usd }),
          by simp [process_defi_data, pyTruthy, hdata, bind,
            Except.bind, pure, Except.pure]⟩
  all_goals exact ⟨[], by simp [process_defi_data]⟩

/-- Rounding never drops below the floor. -/
theorem floor_le_roundHalfEven (q : Rat) : ⌊q⌋ ≤ roundHalfEven q := by
  unfold roundHalfEven
  repeat' split
  all_goals omega

/-- A value strictly above 5 stays at least 5 after rounding to 6 digits. -/
theorem round6_ge_of_gt {q : Rat} (h : 5 < q) : 5 ≤ round6 q := by
  have h1 : (5000000 : Int) ≤ ⌊q * 1000000⌋ := by
    rw [Int.le_floor]
    push_cast
    linarith
  have h2 : (5000000 : Int) ≤ roundHalfEven (q * 1000000) :=
    le_trans h1 (floor_le_roundHalfEven _)
  have h3 : (5000000 : Rat) ≤ ((roundHalfEven (q * 1000000) : Int) : Rat) := by
    exact_mod_cast h2
  rw [round6, le_div_iff₀ (by norm_num : (0 : Rat) < 1000000)]
  linarith

/-- The head-match test recognises exactly the leading occurrences. -/
theorem leadMatch_iff (n : List Char) : ∀ h : List Char,
    (leadMatch n h = true ↔ ∃ t, n ++ t = h) := by
  induction n with
  | nil => intro h; simp [leadMatch]
  | cons a as ih =>
      intro h
      cases h with
      | nil => simp [leadMatch]
      | cons b bs =>
          simp only [leadMatch, Bool.and_eq_true, beq_iff_eq, ih bs]
          constructor
          · rintro ⟨rfl, t, rfl⟩
            exact ⟨t, rfl⟩
          · rintro ⟨t, ht⟩
            injection ht with h1 h2
            exact ⟨h1, t, h2⟩

/-- The substring test recognises exactly the contiguous occurrences: the
case-insensitive "contains as a substring" wording of the spec. -/
theorem hasSub_iff (n : List Char) : ∀ h : List Char,
    (hasSub n h = true ↔ ∃ s t, s ++ n ++ t = h) := by
  intro h
  induction h with
  | nil =>
      simp [hasSub, List.isEmpty_iff, List.append_eq_nil]
  | cons c cs ih =>
      simp only [hasSub, Bool.or_eq_true, ih, leadMatch_iff]
      constructor
      · rintro (⟨t, ht⟩ | ⟨s, t, rfl⟩)
        · exact ⟨[], t, by simpa using ht⟩
        · exact ⟨c :: s, t, rfl⟩
      · rintro ⟨s, t, hst⟩
        cases s with
        | nil =>
            left
            exact ⟨t, by simpa using hst⟩
        | cons x xs =>
            right
            injection hst with h1 h2
            exact ⟨xs, t, h2⟩

/-- The match test of the selection loop holds exactly when some sub-symbol,
upper-cased, occurs as a substring of the upper-cased pool symbol. -/
theorem symMatch_iff (tokens : List String) (sym : String) :
    symMatch tokens sym = true ↔
      ∃ t ∈ tokens, ∃ s u,
        s ++ (pyUpper t).toList ++ u = (pyUpper sym).toList := by
  simp [symMatch, List.any_eq_true, hasSub_iff]

/-- Pure form of one selection step on a well-formed pool: the alternative
the loop appends, when the pool matches. -/
def selProj (tokens : List String) (p : PyVal) : Option Alt :=
  match p with
  | .dict kvs =>
      match dictFind kvs "symbol" with
      | some (.str sym) =>
          if symMatch tokens sym then some (poolProj kvs sym) else Option.none
      | _ => Option.none
  | _ => Option.none

/-- On a well-formed pool, one selection step returns exactly the projected
alternative when the symbol matches and nothing otherwise. -/
theorem poolAlt_wf (tokens : List String) {p : PyVal}
    (hwf : wfPoolSel p = true) :
    ∃ kvs sym, p = .dict kvs ∧ dictFind kvs "symbol" = some (.str sym) ∧
      poolAlt tokens p = .ok (selProj tokens p) := by
  cases p
  case dict kvs =>
    cases hsym : dictFind kvs "symbol" with
    | none => simp [wfPoolSel, hsym] at hwf
    | some symv =>
      cases symv
      case str sym =>
        refine ⟨kvs, sym, rfl, hsym, ?_⟩
        have hwf2 := hwf
        simp [wfPoolSel, hsym] at hwf2
        obtain ⟨pr, hpr⟩ := Option.isSome_iff_exists.mp hwf2.1
        obtain ⟨ch, hch⟩ := Option.isSome_iff_exists.mp hwf2.2
        by_cases hm : symMatch tokens sym = true
        · simp [poolAlt, pySubscript, hsym, hm, hpr, hch, selProj, poolProj,
            bind, Except.bind, pure, Except.pure]
        · simp [poolAlt, pySubscript, hsym, hm, selProj, bind, Except.bind,
            pure, Except.pure]
      all_goals simp [wfPoolSel, hsym] at hwf
  all_goals simp [wfPoolSel] at hwf

/-- On well-formed pools, the selection loop never raises and collects, in
input order, exactly the projections of the matching pools. -/
theorem selectAlts_wf (tokens : List String) (pools : List PyVal)
    (hwf : ∀ p ∈ pools, wfPoolSel p = true) :
    selectAlts tokens pools = .ok (pools.filterMap (selProj tokens)) := by
  induction pools with
  | nil => rfl
  | cons p ps ih =>
      obtain ⟨kvs, sym, rfl, hsym, hpa⟩ := poolAlt_wf tokens (hwf p (by simp))
      have ihh := ih (fun x hx => hwf x (List.mem_cons_of_mem _ hx))
      by_cases hm : symMatch tokens sym = true
      · simp [selectAlts, hpa, ihh, selProj, hsym, hm, List.filterMap_cons,
          bind, Except.bind, pure, Except.pure]
      · simp [selectAlts, hpa, ihh, selProj, hsym, hm, List.filterMap_cons,
          bind, Except.bind, pure, Except.pure]

/-- A filterMap that never drops is a map. -/
theorem filterMap_eq_map_of_mem {α β : Type} (f : α → Option β) (g : α → β)
    (l : List α) (h : ∀ x ∈ l, f x = some (g x)) :
    l.filterMap f = l.map g := by
  induction l with
  | nil => rfl
  | cons x xs ih =>
      simp [List.filterMap_cons, h x (by simp),
        ih (fun y hy => h y (List.mem_cons_of_mem _ hy))]

/-- Every alternative selected from fully well-formed pools stores a numeric
apy (a missing key defaults to the integer `0`). -/
theorem selProj_apy_numeric {p : PyVal} (tokens : List String) {a : Alt}
    (hwf : wfPool p = true) (h : selProj tokens p = some a) :
    (pyNum a.apy).isSome = true := by
  cases p
  case dict kvs =>
    cases hsym : dictFind kvs "symbol" with
    | none => simp [selProj, hsym] at h
    | some symv =>
      cases symv
      case str sym =>
        by_cases hm : symMatch tokens sym = true
        · simp [selProj, hsym, hm] at h
          have hapy := hwf
          simp [wfPool] at hapy
          subst h
          cases hf : dictFind kvs "apy" with
          | none => simp [poolProj, dictGet, hf, pyNum]
          | some av =>
              have := hapy.2
              simp [hf] at this
              simpa [poolProj, dictGet, hf] using this
        · simp [selProj, hsym, hm] at h
      all_goals simp [selProj, hsym] at h
  all_goals simp [selProj] at h

/-- The descending apy comparison is transitive. -/
theorem apyGe_trans (a b c : Alt) (hab : apyGe a b = true)
    (hbc : apyGe b c = true) : apyGe a c = true := by
  simp [apyGe] at hab hbc ⊢
  exact le_trans hbc hab

/-- The descending apy comparison is total. -/
theorem apyGe_total (a b : Alt) : (apyGe a b || apyGe b a) = true := by
  simp [apyGe]
  exact le_total (apyKey b) (apyKey a)

/-- When every stored apy is numeric, the sort stage is the stable merge sort
followed by truncation (including the trivial short lists). -/
theorem sortTake_eq (n : Nat) (alts : List Alt)
    (h : alts.all (fun a => (pyNum a.apy).isSome) = true) :
    sortTake n alts = .ok ((alts.mergeSort apyGe).take n) := by
  by_cases hlen : alts.length ≤ 1
  · cases alts with
    | nil => simp [sortTake, List.mergeSort_nil]
    | cons a as =>
        cases as with
        | nil => simp [sortTake, List.mergeSort_singleton]
        | cons b bs => simp at hlen
  · simp [sortTake, hlen, h]

/-- Lists with at most one element are vacuously chained. -/
theorem chain'_of_length_le_one {α : Type} {R : α → α → Prop} {l : List α}
    (h : l.length ≤ 1) : List.Chain' R l := by
  cases l with
  | nil => exact List.chain'_nil
  | cons a as =>
      cases as with
      | nil => exact List.chain'_singleton a
      | cons b bs => simp at h

/-- Everything a successful sort stage guarantees: truncation to the limit,
descending apy order, and (per apy value) a sublist of the selection in its
original order — the stability guarantee. -/
theorem sortTake_props {n : Nat} {alts out : List Alt}
    (h : sortTake n alts = .ok out) :
    out.length ≤ n ∧
    List.Chain' (fun a b : Alt => apyKey b ≤ apyKey a) out ∧
    ∀ q : Rat, (out.filter (fun a => decide (apyKey a = q))).Sublist
      (alts.filter (fun a => decide (apyKey a = q))) := by
  by_cases hlen : alts.length ≤ 1
  · have hout : out = alts.take n := by
      simp [sortTake, hlen] at h
      exact h.symm
    subst hout
    refine ⟨by simp [List.length_take], ?_, ?_⟩
    · exact chain'_of_length_le_one
        (le_trans (List.Sublist.length_le (List.take_sublist n alts)) hlen)
    · intro q
      exact List.Sublist.filter _ (List.take_sublist n alts)
  · by_cases hnum : alts.all (fun a => (pyNum a.apy).isSome) = true
    · have hout : out = (alts.mergeSort apyGe).take n := by
        simp [sortTake, hlen, hnum] at h
        exact h.symm
      subst hout
      refine ⟨by simp [List.length_take], ?_, ?_⟩
      · have hsorted := List.sorted_mergeSort apyGe_trans apyGe_total alts
        have hsorted2 : List.Pairwise
            (fun a b : Alt => apyKey b ≤ apyKey a) (alts.mergeSort apyGe) :=
          hsorted.imp (fun hab => by simpa [apyGe] using hab)
        exact ((hsorted2.sublist
          (List.take_sublist n (alts.mergeSort apyGe)))).chain'
      · intro q
        have hform : ∀ x ∈ alts.filter (fun a => decide (apyKey a = q)),
            ∀ y ∈ alts.filter (fun a => decide (apyKey a = q)),
            apyGe x y = true := by
          intro x hx y hy
          have hxq : apyKey x = q := by
            have := List.of_mem_filter hx
            simpa using this
          have hyq : apyKey y = q := by
            have := List.of_mem_filter hy
            simpa using this
          simp [apyGe, hxq, hyq]
        have hsub1 : (alts.filter (fun a => decide (apyKey a = q))).Sublist
            (alts.mergeSort apyGe) :=
          List.sublist_mergeSort apyGe_trans apyGe_total
            (List.pairwise_of_forall_mem_list hform)
            (List.filter_sublist alts)
        have hself : (alts.filter (fun a => decide (apyKey a = q))).filter
            (fun a => decide (apyKey a = q)) =
            alts.filter (fun a => decide (apyKey a = q)) :=
          List.filter_eq_self.mpr (fun a ha => by
            have := List.of_mem_filter ha
            simpa using this)
        have hsub2 : (alts.filter (fun a => decide (apyKey a = q))).Sublist
            ((alts.mergeSort apyGe).filter (fun a => decide (apyKey a = q))) := by
          have hf := List.Sublist.filter (fun a => decide (apyKey a = q)) hsub1
          rwa [hself] at hf
        have hperm : ((alts.mergeSort apyGe).filter
            (fun a => decide (apyKey a = q))).Perm
            (alts.filter (fun a => decide (apyKey a = q))) :=
          (List.mergeSort_perm alts apyGe).filter _
        have heq : (alts.filter (fun a => decide (apyKey a = q))) =
            ((alts.mergeSort apyGe).filter (fun a => decide (apyKey a = q))) :=
          hsub2.eq_of_length hperm.length_eq.symm
        calc ((alts.mergeSort apyGe).take n).filter
              (fun a => decide (apyKey a = q))
            |>.Sublist ((alts.mergeSort apyGe).filter
              (fun a => decide (apyKey a = q))) :=
              List.Sublist.filter _ (List.take_sublist n _)
          _ = alts.filter (fun a => decide (apyKey a = q)) := heq.symm
    · simp [sortTake, hlen, hnum] at h

/-- A successful ranking run factors into a successful selection followed by
a successful sort stage. -/
theorem get_alternatives_split {tok : String} {d : PyVal} {n : Nat}
    {out : List Alt} (h : get_alternatives_for_token tok d n = .ok out) :
    ∃ alts, selection tok d = .ok alts ∧ sortTake n alts = .ok out := by
  cases hsel : selection tok d with
  | error e => simp [get_alternatives_for_token, hsel, bind, Except.bind] at h
  | ok alts =>
      refine ⟨alts, rfl, ?_⟩
      simpa [get_alternatives_for_token, hsel, bind, Except.bind] using h

/-- On the canonical yield payload shape, selection reduces to the pool
loop. -/
theorem selection_data (tok : String) (pools : List PyVal) :
    selection tok (.dict [("data", .list pools)]) =
      selectAlts (pySplit tok '/') pools := by
  simp [selection, pyTruthy, pyContains, pySubscript, pyIter, dictFind,
    List.lookup, bind, Except.bind]

/-- Full pipeline on one protocol entry holding one liquidity-pool module
whose first two supply tokens coerce: the module contributes exactly one
merged row, kept iff the summed balance clears the filter. -/
theorem process_lp_single (chainV cnV : PyVal) (k0 k1 : List (String × PyVal))
    (rest : List PyVal) (b0 b1 u0 u1 : Rat)
    (hb0 : pyFloat (dictGet k0 "balance" (.int 0)) = .ok b0)
    (hb1 : pyFloat (dictGet k1 "balance" (.int 0)) = .ok b1)
    (hu0 : pyFloat (dictGet k0 "balanceUSD" (.int 0)) = .ok u0)
    (hu1 : pyFloat (dictGet k1 "balanceUSD" (.int 0)) = .ok u1) :
    process_defi_data (.list [.dict [("chain", chainV), ("commonName", cnV),
      ("portfolio", .list [.dict [("module", .str "Liquidity Pool"),
        ("detailed", .dict [("supply",
          .list (.dict k0 :: .dict k1 :: rest))])]])]]) =
      .ok (if 5 < u0 + u1 then
        [⟨pyStr chainV, pyStr cnV, "Liquidity Pool",
          pyStr (dictGet k0 "tokenSymbol" (.str "")) ++ "/" ++
            pyStr (dictGet k1 "tokenSymbol" (.str "")),
          round6 (u0 + u1)⟩]
        else []) := by
  have hbody := procLPBody_dict k0 k1 (pyStr chainV) (pyStr cnV)
    "Liquidity Pool"
  rw [hb0, hb1, hu0, hu1] at hbody
  simp only [Except.bind] at hbody
  have hm : pyStr (PyVal.str "Liquidity Pool") = "Liquidity Pool" := rfl
  by_cases h5 : 5 < u0 + u1
  · simp [process_defi_data, pyTruthy, procProtocols, procProtocol, pyIter,
      procModules, procModule, procSupply, procTokens, dictFind, dictGet,
      List.lookup, pyContains, pySubscript, hm, hbody, catchVT, h5,
      bind, Except.bind, pure, Except.pure, List.filter]
  · simp [process_defi_data, pyTruthy, procProtocols, procProtocol, pyIter,
      procModules, procModule, procSupply, procTokens, dictFind, dictGet,
      List.lookup, pyContains, pySubscript, hm, hbody, catchVT, h5,
      bind, Except.bind, pure, Except.pure, List.filter]

/-- Full pipeline on one protocol entry holding one single-token module whose
token coerces: one row, kept iff the balance clears the filter. -/
theorem process_st_single (chainV cnV modV : PyVal)
    (k0 : List (String × PyVal)) (b : Rat)
    (hb : pyFloat (dictGet k0 "balanceUSD" (.int 0)) = .ok b) :
    process_defi_data (.list [.dict [("chain", chainV), ("commonName", cnV),
      ("portfolio", .list [.dict [("module", modV),
        ("detailed", .dict [("supply", .list [.dict k0])])]])]]) =
      .ok (if 5 < b then
        [⟨pyStr chainV, pyStr cnV, pyStr modV,
          pyStr (dictGet k0 "tokenSymbol" (.str "")), round6 b⟩]
        else []) := by
  have hbody := procTokenBody_dict k0 (pyStr chainV) (pyStr cnV) (pyStr modV)
  rw [hb] at hbody
  simp only [Except.bind] at hbody
  have hm : pyStr (PyVal.str "Liquidity Pool") = "Liquidity Pool" := rfl
  by_cases h5 : 5 < b
  · simp [process_defi_data, pyTruthy, procProtocols, procProtocol, pyIter,
      procModules, procModule, procSupply, procTokens, dictFind, dictGet,
      List.lookup, pyContains, pySubscript, hm, hbody, catchVT, h5,
      bind, Except.bind, pure, Except.pure, List.filter]
  · simp [process_defi_data, pyTruthy, procProtocols, procProtocol, pyIter,
      procModules, procModule, procSupply, procTokens, dictFind, dictGet,
      List.lookup, pyContains, pySubscript, hm, hbody, catchVT, h5,
      bind, Except.bind, pure, Except.pure, List.filter]

/-- Full pipeline on one protocol entry holding one liquidity-pool module
whose first token's `balance` fails to coerce: the whole merged record is
dropped, whatever the `balanceUSD` values are. -/
theorem process_lp_single_badbalance (chainV cnV : PyVal)
    (k0 k1 : List (String × PyVal)) (rest : List PyVal)
    (hb0 : pyFloat (dictGet k0 "balance" (.int 0)) = .error .valueError) :
    process_defi_data (.list [.dict [("chain", chainV), ("commonName", cnV),
      ("portfolio", .list [.dict [("module", .str "Liquidity Pool"),
        ("detailed", .dict [("supply",
          .list (.dict k0 :: .dict k1 :: rest))])]])]]) = .ok [] := by
  have hbody := procLPBody_dict k0 k1 (pyStr chainV) (pyStr cnV)
    "Liquidity Pool"
  rw [hb0] at hbody
  simp only [Except.bind] at hbody
  have hm : pyStr (PyVal.str "Liquidity Pool") = "Liquidity Pool" := rfl
  simp [process_defi_data, pyTruthy, procProtocols, procProtocol, pyIter,
    procModules, procModule, procSupply, procTokens, dictFind, dictGet,
    List.lookup, pyContains, pySubscript, hm, hbody, catchVT,
    bind, Except.bind, pure, Except.pure, List.filter]

/-! ### Claims -/

/-- Claim C3, counterexample: `process_defi_data` does raise on a list
containing a non-dict entry — `[1]` hits `1.get('chain', '')`, an
`AttributeError` that no handler catches, contradicting "never raises ... for
every input value whatsoever (including lists containing non-dict
entries)". -/
theorem c3_counterexample :
    process_defi_data (.list [.int 1]) = .error .attributeError := rfl

/-- Claim C3 (amended): the normalizer never raises on payloads whose layers
are dicts wherever the source calls `.get` or subscripts — every list entry a
dict, every present `portfolio` a list of dicts, every present `detailed` a
dict, every supply entry a dict; on such payloads a table is always
returned.  (On other payloads it can raise `AttributeError`/`TypeError`.) -/
theorem c3_no_raise_amended (v : PyVal) (hwf : wfPayload v = true) :
    ∃ rows, process_defi_data v = .ok rows :=
  process_defi_data_wf_ok v hwf

/-- Witness for the amended C3 at a concrete well-formed payload. -/
theorem c3_no_raise_amended_witness :
    wfPayload (.list [.dict [("chain", .str "Solana"),
      ("portfolio", .list [.dict [("module", .str "Staking"),
        ("detailed", .dict [("supply", .list [.dict [("tokenSymbol",
          .str "SOL"), ("balanceUSD", .str "7")]])])]])]]) = true ∧
    ∃ rows, process_defi_data (.list [.dict [("chain", .str "Solana"),
      ("portfolio", .list [.dict [("module", .str "Staking"),
        ("detailed", .dict [("supply", .list [.dict [("tokenSymbol",
          .str "SOL"), ("balanceUSD", .str "7")]])])]])]]) = .ok rows :=
  ⟨by decide, c3_no_raise_amended _ (by decide)⟩

/-- Claim C6: every input that is empty or is not a list yields the empty
table (with the `Row` columns) and no error. -/
theorem c6_empty_or_nonlist (v : PyVal)
    (h : (v matches PyVal.list _) = false ∨ v = .list []) :
    process_defi_data v = .ok [] := by
  rcases h with h | rfl
  · cases v
    case list xs => simp at h
    all_goals simp [process_defi_data]
  · rfl

/-- Witness for C6 at a non-list input. -/
theorem c6_empty_or_nonlist_witness :
    ((PyVal.int 7 matches PyVal.list _) = false ∨ PyVal.int 7 = .list []) ∧
    process_defi_data (.int 7) = .ok [] :=
  ⟨Or.inl rfl, c6_empty_or_nonlist _ (Or.inl rfl)⟩

/-- Claim C9: with an empty pool list, with no payload at all, or with a
payload lacking the `data` key, the ranker returns the empty sequence without
error, for every token symbol and limit. -/
theorem c9_empty_pools (tok : String) (n : Nat) :
    get_alternatives_for_token tok (.dict [("data", .list [])]) n = .ok [] ∧
    get_alternatives_for_token tok .none n = .ok [] ∧
    ∀ kvs : List (String × PyVal), dictFind kvs "data" = Option.none →
      get_alternatives_for_token tok (.dict kvs) n = .ok [] := by
  refine ⟨?_, ?_, ?_⟩
  · simp [get_alternatives_for_token, selection, pyTruthy, pyContains,
      pySubscript, pyIter, dictFind, List.lookup, selectAlts, sortTake,
      bind, Except.bind, pure, Except.pure]
  · simp [get_alternatives_for_token, selection, pyTruthy, sortTake,
      bind, Except.bind, pure, Except.pure]
  · intro kvs hk
    cases kvs with
    | nil =>
        simp [get_alternatives_for_token, selection, pyTruthy, sortTake,
          bind, Except.bind, pure, Except.pure]
    | cons kv rest =>
        simp [get_alternatives_for_token, selection, pyTruthy, pyContains, hk,
          sortTake, bind, Except.bind, pure, Except.pure]

/-- Witness for C9 on a payload carrying only an `error` key. -/
theorem c9_empty_pools_witness :
    dictFind [("error", PyVal.str "boom")] "data" = Option.none ∧
    get_alternatives_for_token "ETH" (.dict [("error", .str "boom")]) 3 =
      .ok [] :=
  ⟨rfl, (c9_empty_pools "ETH" 3).2.2 _ rfl⟩

/-- Claim C7: the spec's end-to-end example — one Solana/Raydium liquidity
pool with supply tokens SOL ($"100") and USDC ($"50") — normalizes to exactly
one row `⟨Solana, Raydium, Liquidity Pool, SOL/USDC, 150⟩`, numeric strings
being accepted by coercion. -/
theorem c7_example_end_to_end :
    process_defi_data (.list [.dict [("chain", .str "Solana"),
      ("commonName", .str "Raydium"),
      ("portfolio", .list [.dict [("module", .str "Liquidity Pool"),
        ("detailed", .dict [("supply", .list [
          .dict [("tokenSymbol", .str "SOL"), ("balanceUSD", .str "100")],
          .dict [("tokenSymbol", .str "USDC"), ("balanceUSD", .str "50")]])])]])]])
      = .ok [⟨"Solana", "Raydium", "Liquidity Pool", "SOL/USDC", 150⟩] := by
  have hb0 : pyFloat (dictGet [("tokenSymbol", PyVal.str "SOL"),
      ("balanceUSD", PyVal.str "100")] "balance" (.int 0)) = .ok (0 : Rat) := by
    rw [show pyFloat (dictGet [("tokenSymbol", PyVal.str "SOL"),
      ("balanceUSD", PyVal.str "100")] "balance" (.int 0)) =
      .ok ((0 : Int) : Rat) from rfl]
    norm_num
  have hb1 : pyFloat (dictGet [("tokenSymbol", PyVal.str "USDC"),
      ("balanceUSD", PyVal.str "50")] "balance" (.int 0)) = .ok (0 : Rat) := by
    rw [show pyFloat (dictGet [("tokenSymbol", PyVal.str "USDC"),
      ("balanceUSD", PyVal.str "50")] "balance" (.int 0)) =
      .ok ((0 : Int) : Rat) from rfl]
    norm_num
  have hu0 : pyFloat (dictGet [("tokenSymbol", PyVal.str "SOL"),
      ("balanceUSD", PyVal.str "100")] "balanceUSD" (.int 0)) =
      .ok (100 : Rat) := by
    rw [show pyFloat (dictGet [("tokenSymbol", PyVal.str "SOL"),
      ("balanceUSD", PyVal.str "100")] "balanceUSD" (.int 0)) =
      .ok ((100 : Int) : Rat) from rfl]
    norm_num
  have hu1 : pyFloat (dictGet [("tokenSymbol", PyVal.str "USDC"),
      ("balanceUSD", PyVal.str "50")] "balanceUSD" (.int 0)) =
      .ok (50 : Rat) := by
    rw [show pyFloat (dictGet [("tokenSymbol", PyVal.str "USDC"),
      ("balanceUSD", PyVal.str "50")] "balanceUSD" (.int 0)) =
      .ok ((50 : Int) : Rat) from rfl]
    norm_num
  rw [process_lp_single _ _ _ _ _ 0 0 100 50 hb0 hb1 hu0 hu1]
  norm_num [round6, roundHalfEven, pyStr, dictGet, dictFind, List.lookup]
  rfl

/-- Claim C1, counterexample: a liquidity-pool module whose two `balanceUSD`
values both parse ("100" and "50") produces NO merged row when the first
token additionally carries a non-numeric `balance` ("xyz") — the `try` block
also coerces `balance`, so the whole record is dropped; and even with all
coercions succeeding, a merged row whose sum is at most 5 (2 + 2) is dropped
by the final filter.  Both refute "produces exactly one merged output row ...
whenever both tokens' balanceUSD values parse as numbers". -/
theorem c1_counterexample :
    pyFloat (.str "100") = .ok ((100 : Int) : Rat) ∧
    pyFloat (.str "50") = .ok ((50 : Int) : Rat) ∧
    process_defi_data (.list [.dict [("chain", .str "Solana"),
      ("commonName", .str "Raydium"),
      ("portfolio", .list [.dict [("module", .str "Liquidity Pool"),
        ("detailed", .dict [("supply", .list [
          .dict [("tokenSymbol", .str "SOL"), ("balance", .str "xyz"),
                 ("balanceUSD", .str "100")],
          .dict [("tokenSymbol", .str "USDC"),
                 ("balanceUSD", .str "50")]])])]])]]) = .ok [] ∧
    process_defi_data (.list [.dict [("chain", .str "Solana"),
      ("commonName", .str "Raydium"),
      ("portfolio", .list [.dict [("module", .str "Liquidity Pool"),
        ("detailed", .dict [("supply", .list [
          .dict [("tokenSymbol", .str "SOL"), ("balanceUSD", .str "2")],
          .dict [("tokenSymbol", .str "USDC"),
                 ("balanceUSD", .str "2")]])])]])]]) = .ok [] := by
  refine ⟨rfl, rfl, rfl, ?_⟩
  have hb0 : pyFloat (dictGet [("tokenSymbol", PyVal.str "SOL"),
      ("balanceUSD", PyVal.str "2")] "balance" (.int 0)) = .ok (0 : Rat) := by
    rw [show pyFloat (dictGet [("tokenSymbol", PyVal.str "SOL"),
      ("balanceUSD", PyVal.str "2")] "balance" (.int 0)) =
      .ok ((0 : Int) : Rat) from rfl]
    norm_num
  have hb1 : pyFloat (dictGet [("tokenSymbol", PyVal.str "USDC"),
      ("balanceUSD", PyVal.str "2")] "balance" (.int 0)) = .ok (0 : Rat) := by
    rw [show pyFloat (dictGet [("tokenSymbol", PyVal.str "USDC"),
      ("balanceUSD", PyVal.str "2")] "balance" (.int 0)) =
      .ok ((0 : Int) : Rat) from rfl]
    norm_num
  have hu0 : pyFloat (dictGet [("tokenSymbol", PyVal.str "SOL"),
      ("balanceUSD", PyVal.str "2")] "balanceUSD" (.int 0)) =
      .ok (2 : Rat) := by
    rw [show pyFloat (dictGet [("tokenSymbol", PyVal.str "SOL"),
      ("balanceUSD", PyVal.str "2")] "balanceUSD" (.int 0)) =
      .ok ((2 : Int) : Rat) from rfl]
    norm_num
  have hu1 : pyFloat (dictGet [("tokenSymbol", PyVal.str "USDC"),
      ("balanceUSD", PyVal.str "2")] "balanceUSD" (.int 0)) =
      .ok (2 : Rat) := by
    rw [show pyFloat (dictGet [("tokenSymbol", PyVal.str "USDC"),
      ("balanceUSD", PyVal.str "2")] "balanceUSD" (.int 0)) =
      .ok ((2 : Int) : Rat) from rfl]
    norm_num
  rw [process_lp_single _ _ _ _ _ 0 0 2 2 hb0 hb1 hu0 hu1]
  norm_num

/-- Claim C1 (amended): a liquidity-pool module with at least two supply
tokens contributes to the output exactly one merged row — never two separate
rows — with `token_symbol = sym0 ++ "/" ++ sym1` and `balance_usd` the sum of
the two `balanceUSD` coercions rounded to 6 digits, provided both tokens'
`balance` AND `balanceUSD` values coerce to numbers and the sum exceeds the
5-dollar filter. -/
theorem c1_lp_merge_amended (chainV cnV : PyVal)
    (k0 k1 : List (String × PyVal)) (rest : List PyVal) (b0 b1 u0 u1 : Rat)
    (hb0 : pyFloat (dictGet k0 "balance" (.int 0)) = .ok b0)
    (hb1 : pyFloat (dictGet k1 "balance" (.int 0)) = .ok b1)
    (hu0 : pyFloat (dictGet k0 "balanceUSD" (.int 0)) = .ok u0)
    (hu1 : pyFloat (dictGet k1 "balanceUSD" (.int 0)) = .ok u1)
    (hgt : 5 < u0 + u1) :
    process_defi_data (.list [.dict [("chain", chainV), ("commonName", cnV),
      ("portfolio", .list [.dict [("module", .str "Liquidity Pool"),
        ("detailed", .dict [("supply",
          .list (.dict k0 :: .dict k1 :: rest))])]])]]) =
      .ok [⟨pyStr chainV, pyStr cnV, "Liquidity Pool",
        pyStr (dictGet k0 "tokenSymbol" (.str "")) ++ "/" ++
          pyStr (dictGet k1 "tokenSymbol" (.str "")),
        round6 (u0 + u1)⟩] := by
  rw [process_lp_single chainV cnV k0 k1 rest b0 b1 u0 u1 hb0 hb1 hu0 hu1,
    if_pos hgt]

/-- Witness for the amended C1 at a concrete liquidity-pool entry. -/
theorem c1_lp_merge_amended_witness :
    pyFloat (dictGet [("tokenSymbol", PyVal.str "ETH"),
      ("balanceUSD", PyVal.int 100)] "balanceUSD" (.int 0)) =
      .ok (100 : Rat) ∧
    pyFloat (dictGet [("tokenSymbol", PyVal.str "DAI"),
      ("balanceUSD", PyVal.int 50)] "balanceUSD" (.int 0)) = .ok (50 : Rat) ∧
    (5 : Rat) < 100 + 50 ∧
    process_defi_data (.list [.dict [("chain", .str "Ethereum"),
      ("commonName", .str "Uniswap"),
      ("portfolio", .list [.dict [("module", .str "Liquidity Pool"),
        ("detailed", .dict [("supply", .list [
          .dict [("tokenSymbol", .str "ETH"), ("balanceUSD", .int 100)],
          .dict [("tokenSymbol", .str "DAI"),
                 ("balanceUSD", .int 50)]])])]])]]) =
      .ok [⟨"Ethereum", "Uniswap", "Liquidity Pool", "ETH/DAI",
        round6 (100 + 50)⟩] := by
  have hb0 : pyFloat (dictGet [("tokenSymbol", PyVal.str "ETH"),
      ("balanceUSD", PyVal.int 100)] "balance" (.int 0)) = .ok (0 : Rat) := by
    rw [show pyFloat (dictGet [("tokenSymbol", PyVal.str "ETH"),
      ("balanceUSD", PyVal.int 100)] "balance" (.int 0)) =
      .ok ((0 : Int) : Rat) from rfl]
    norm_num
  have hb1 : pyFloat (dictGet [("tokenSymbol", PyVal.str "DAI"),
      ("balanceUSD", PyVal.int 50)] "balance" (.int 0)) = .ok (0 : Rat) := by
    rw [show pyFloat (dictGet [("tokenSymbol", PyVal.str "DAI"),
      ("balanceUSD", PyVal.int 50)] "balance" (.int 0)) =
      .ok ((0 : Int) : Rat) from rfl]
    norm_num
  have hu0 : pyFloat (dictGet [("tokenSymbol", PyVal.str "ETH"),
      ("balanceUSD", PyVal.int 100)] "balanceUSD" (.int 0)) =
      .ok (100 : Rat) := by
    rw [show pyFloat (dictGet [("tokenSymbol", PyVal.str "ETH"),
      ("balanceUSD", PyVal.int 100)] "balanceUSD" (.int 0)) =
      .ok ((100 : Int) : Rat) from rfl]
    norm_num
  have hu1 : pyFloat (dictGet [("tokenSymbol", PyVal.str "DAI"),
      ("balanceUSD", PyVal.int 50)] "balanceUSD" (.int 0)) =
      .ok (50 : Rat) := by
    rw [show pyFloat (dictGet [("tokenSymbol", PyVal.str "DAI"),
      ("balanceUSD", PyVal.int 50)] "balanceUSD" (.int 0)) =
      .ok ((50 : Int) : Rat) from rfl]
    norm_num
  exact ⟨hu0, hu1, by norm_num,
    c1_lp_merge_amended (.str "Ethereum") (.str "Uniswap") _ _ [] 0 0 100 50
      hb0 hb1 hu0 hu1 (by norm_num)⟩

/-- Claim C2, counterexample: a token whose `balanceUSD` is `"5.0000001"`
passes the strict `> 5` filter but is then rounded to 6 digits, so the
returned table contains a row whose `balance_usd` is exactly 5, refuting
"every row of the returned table has balance_usd strictly greater than
5". -/
theorem c2_counterexample :
    process_defi_data (.list [.dict [("chain", .str "Base"),
      ("commonName", .str "Aerodrome"),
      ("portfolio", .list [.dict [("module", .str "Staking"),
        ("detailed", .dict [("supply", .list [
          .dict [("tokenSymbol", .str "AERO"),
                 ("balanceUSD", .str "5.0000001")]])])]])]]) =
      .ok [⟨"Base", "Aerodrome", "Staking", "AERO", 5⟩] ∧
    ¬ (5 < (5 : Rat)) := by
  constructor
  · have hb : pyFloat (dictGet [("tokenSymbol", PyVal.str "AERO"),
        ("balanceUSD", PyVal.str "5.0000001")] "balanceUSD" (.int 0)) =
        .ok (50000001 / 10000000 : Rat) := by
      rw [show pyFloat (dictGet [("tokenSymbol", PyVal.str "AERO"),
        ("balanceUSD", PyVal.str "5.0000001")] "balanceUSD" (.int 0)) =
        .ok (((decVal "5".toList : Int) : Rat) +
          (decVal "0000001".toList : Rat) / (10 : Rat) ^ (7 : Nat)) from rfl]
      rw [show decVal "5".toList = 5 from rfl,
        show decVal "0000001".toList = 1 from rfl]
      norm_num
    rw [process_st_single (.str "Base") (.str "Aerodrome") (.str "Staking")
      _ _ hb]
    norm_num [round6, roundHalfEven, pyStr, dictGet, dictFind, List.lookup]
  · norm_num

/-- Claim C2 (amended): every row of a successfully returned table has
`balance_usd ≥ 5` — the strict `> 5` filter runs before the final rounding
to 6 digits, which can bring a passing value down to exactly 5 but never
below it; rows whose unrounded balance is at or below 5 never appear. -/
theorem c2_min_balance_amended (v : PyVal) (rows : List Row)
    (h : process_defi_data v = .ok rows) :
    ∀ r ∈ rows, 5 ≤ r.balance_usd := by
  intro r hr
  rcases process_defi_data_shape h with rfl | ⟨ps, data, rfl, hdata, rfl⟩
  · simp at hr
  · obtain ⟨r0, hr0, rfl⟩ := List.mem_map.mp hr
    have h5 : 5 < r0.balance_usd := by
      have hmem := List.of_mem_filter hr0
      simpa using hmem
    exact round6_ge_of_gt h5

/-- Witness for the amended C2 at the boundary row whose rounded balance is
exactly 5. -/
theorem c2_min_balance_amended_witness :
    process_defi_data (.list [.dict [("chain", .str "Base"),
      ("commonName", .str "Velodrome"),
      ("portfolio", .list [.dict [("module", .str "Farming"),
        ("detailed", .dict [("supply", .list [
          .dict [("tokenSymbol", .str "VELO"),
                 ("balanceUSD", .str "5.0000001")]])])]])]]) =
      .ok [⟨"Base", "Velodrome", "Farming", "VELO", 5⟩] ∧
    (5 : Rat) ≤ Row.balance_usd ⟨"Base", "Velodrome", "Farming", "VELO", 5⟩ := by
  have hb : pyFloat (dictGet [("tokenSymbol", PyVal.str "VELO"),
      ("balanceUSD", PyVal.str "5.0000001")] "balanceUSD" (.int 0)) =
      .ok (50000001 / 10000000 : Rat) := by
    rw [show pyFloat (dictGet [("tokenSymbol", PyVal.str "VELO"),
      ("balanceUSD", PyVal.str "5.0000001")] "balanceUSD" (.int 0)) =
      .ok (((decVal "5".toList : Int) : Rat) +
        (decVal "0000001".toList : Rat) / (10 : Rat) ^ (7 : Nat)) from rfl]
    rw [show decVal "5".toList = 5 from rfl,
      show decVal "0000001".toList = 1 from rfl]
    norm_num
  have hrun : process_defi_data (.list [.dict [("chain", .str "Base"),
      ("commonName", .str "Velodrome"),
      ("portfolio", .list [.dict [("module", .str "Farming"),
        ("detailed", .dict [("supply", .list [
          .dict [("tokenSymbol", .str "VELO"),
                 ("balanceUSD", .str "5.0000001")]])])]])]]) =
      .ok [⟨"Base", "Velodrome", "Farming", "VELO", 5⟩] := by
    rw [process_st_single (.str "Base") (.str "Velodrome") (.str "Farming")
      _ _ hb]
    norm_num [round6, roundHalfEven, pyStr, dictGet, dictFind, List.lookup]
  exact ⟨hrun, c2_min_balance_amended _ _ hrun _ (by simp)⟩

/-- An empty needle occurs in every haystack (Python `"" in s` is `True`). -/
theorem hasSub_nil (h : List Char) : hasSub [] h = true := by
  cases h <;> simp [hasSub, leadMatch]

/-- Characterisation of one pure selection step. -/
theorem selProj_some_iff (tokens : List String) (p : PyVal) (a : Alt) :
    selProj tokens p = some a ↔ ∃ kvs sym, p = .dict kvs ∧
      dictFind kvs "symbol" = some (.str sym) ∧ symMatch tokens sym = true ∧
      a = poolProj kvs sym := by
  cases p
  case dict kvs =>
    cases hsym : dictFind kvs "symbol" with
    | none => simp [selProj, hsym]
    | some symv =>
      cases symv
      case str sym =>
        by_cases hm : symMatch tokens sym = true
        · constructor
          · intro h
            simp [selProj, hsym, hm] at h
            exact ⟨kvs, sym, rfl, hsym, hm, h.symm⟩
          · rintro ⟨kvs2, sym2, heq, hsym2, hm2, rfl⟩
            injection heq with heq
            subst heq
            rw [hsym] at hsym2
            injection hsym2 with hsym2
            injection hsym2 with hsym2
            subst hsym2
            simp [selProj, hsym, hm]
        · constructor
          · intro h
            simp [selProj, hsym, hm] at h
          · rintro ⟨kvs2, sym2, heq, hsym2, hm2, rfl⟩
            injection heq with heq
            subst heq
            rw [hsym] at hsym2
            injection hsym2 with hsym2
            injection hsym2 with hsym2
            subst hsym2
            exact absurd hm2 hm
      all_goals simp [selProj, hsym]
  all_goals simp [selProj]

/-- Claim C4: whenever the ranker returns an output, its length is at most
the limit `n`, adjacent entries are in non-strictly descending apy order, and
per apy value the output is a sublist of the selection in its original input
order — the stable-sort guarantee. -/
theorem c4_rank_sorted_bounded (tok : String) (d : PyVal) (n : Nat)
    (out : List Alt) (h : get_alternatives_for_token tok d n = .ok out) :
    out.length ≤ n ∧
    List.Chain' (fun a b : Alt => apyKey b ≤ apyKey a) out ∧
    ∃ alts, selection tok d = .ok alts ∧
      ∀ q : Rat, (out.filter (fun a => decide (apyKey a = q))).Sublist
        (alts.filter (fun a => decide (apyKey a = q))) := by
  obtain ⟨alts, hsel, hsort⟩ := get_alternatives_split h
  obtain ⟨h1, h2, h3⟩ := sortTake_props hsort
  exact ⟨h1, h2, alts, hsel, h3⟩

/-- Witness for C4 on a one-pool run. -/
theorem c4_rank_sorted_bounded_witness :
    get_alternatives_for_token "ETH" (.dict [("data", .list [.dict [
      ("symbol", .str "ETH-USDC"), ("project", .str "uniswap"),
      ("chain", .str "eth"), ("apy", .int 5)]])]) 3 =
      .ok [⟨"ETH-USDC", .str "uniswap", .str "eth", .int 5, .int 0⟩] ∧
    (([⟨"ETH-USDC", .str "uniswap", .str "eth", .int 5, .int 0⟩] :
        List Alt).length ≤ 3 ∧
      List.Chain' (fun a b : Alt => apyKey b ≤ apyKey a)
        [⟨"ETH-USDC", .str "uniswap", .str "eth", .int 5, .int 0⟩] ∧
      ∃ alts, selection "ETH" (.dict [("data", .list [.dict [
          ("symbol", .str "ETH-USDC"), ("project", .str "uniswap"),
          ("chain", .str "eth"), ("apy", .int 5)]])]) = .ok alts ∧
        ∀ q : Rat, (([⟨"ETH-USDC", .str "uniswap", .str "eth", .int 5,
            .int 0⟩] : List Alt).filter
            (fun a => decide (apyKey a = q))).Sublist
          (alts.filter (fun a => decide (apyKey a = q)))) :=
  ⟨rfl, c4_rank_sorted_bounded "ETH" _ 3 _ rfl⟩

/-- Claim C5: over well-formed pools, the selection loop admits a pool if and
only if the pool's `symbol` contains, case-insensitively, some sub-symbol of
the query (split on "/") as a contiguous substring, and it emits exactly that
pool's projection; no other pool contributes. -/
theorem c5_selection_iff (tok : String) (pools : List PyVal)
    (alts : List Alt) (hwf : ∀ p ∈ pools, wfPoolSel p = true)
    (hsel : selectAlts (pySplit tok '/') pools = .ok alts) (a : Alt) :
    a ∈ alts ↔ ∃ kvs, PyVal.dict kvs ∈ pools ∧ ∃ sym,
      dictFind kvs "symbol" = some (.str sym) ∧
      (∃ t ∈ pySplit tok '/', ∃ s u,
        s ++ (pyUpper t).toList ++ u = (pyUpper sym).toList) ∧
      a = poolProj kvs sym := by
  rw [selectAlts_wf _ _ hwf] at hsel
  injection hsel with hsel
  subst hsel
  constructor
  · intro ha
    obtain ⟨p, hp, hsp⟩ := List.mem_filterMap.mp ha
    obtain ⟨kvs, sym, rfl, hsym, hmatch, rfl⟩ :=
      (selProj_some_iff _ _ _).mp hsp
    exact ⟨kvs, hp, sym, hsym, (symMatch_iff _ _).mp hmatch, rfl⟩
  · rintro ⟨kvs, hp, sym, hsym, hsub, rfl⟩
    exact List.mem_filterMap.mpr ⟨.dict kvs, hp,
      (selProj_some_iff _ _ _).mpr
        ⟨kvs, sym, rfl, hsym, (symMatch_iff _ _).mpr hsub, rfl⟩⟩

/-- Witness for C5: the claim's own example — querying "USDC" selects the
pool with symbol "USDC-USDT" by substring match. -/
theorem c5_selection_iff_witness :
    (∀ p ∈ [PyVal.dict [("symbol", PyVal.str "USDC-USDT"),
        ("project", PyVal.str "curve"), ("chain", PyVal.str "eth")]],
      wfPoolSel p = true) ∧
    selectAlts (pySplit "USDC" '/') [PyVal.dict [("symbol",
      PyVal.str "USDC-USDT"), ("project", PyVal.str "curve"),
      ("chain", PyVal.str "eth")]] =
      .ok [poolProj [("symbol", PyVal.str "USDC-USDT"),
        ("project", PyVal.str "curve"), ("chain", PyVal.str "eth")]
        "USDC-USDT"] ∧
    (poolProj [("symbol", PyVal.str "USDC-USDT"),
        ("project", PyVal.str "curve"), ("chain", PyVal.str "eth")]
        "USDC-USDT" ∈
      [poolProj [("symbol", PyVal.str "USDC-USDT"),
        ("project", PyVal.str "curve"), ("chain", PyVal.str "eth")]
        "USDC-USDT"] ↔
      ∃ kvs, PyVal.dict kvs ∈ [PyVal.dict [("symbol",
          PyVal.str "USDC-USDT"), ("project", PyVal.str "curve"),
          ("chain", PyVal.str "eth")]] ∧ ∃ sym,
        dictFind kvs "symbol" = some (.str sym) ∧
        (∃ t ∈ pySplit "USDC" '/', ∃ s u,
          s ++ (pyUpper t).toList ++ u = (pyUpper sym).toList) ∧
        poolProj [("symbol", PyVal.str "USDC-USDT"),
          ("project", PyVal.str "curve"), ("chain", PyVal.str "eth")]
          "USDC-USDT" = poolProj kvs sym) := by
  refine ⟨by decide, rfl, ?_⟩
  exact c5_selection_iff "USDC"
    [PyVal.dict [("symbol", PyVal.str "USDC-USDT"),
      ("project", PyVal.str "curve"), ("chain", PyVal.str "eth")]]
    [poolProj [("symbol", PyVal.str "USDC-USDT"),
      ("project", PyVal.str "curve"), ("chain", PyVal.str "eth")]
      "USDC-USDT"]
    (by decide) rfl _

/-- Claim C8, counterexample: a pool entry lacking the `symbol` key makes the
whole ranking call raise `KeyError` — it is not skipped, and the following
well-formed pool is never ranked, refuting "the offending record is skipped
locally and the remaining pools are still ranked and returned". -/
theorem c8_counterexample :
    get_alternatives_for_token "ETH" (.dict [("data", .list [
      .dict [("apy", .int 10)],
      .dict [("symbol", .str "ETH-USDC"), ("project", .str "uniswap"),
        ("chain", .str "eth"), ("apy", .int 5)]])]) 3 =
      .error (.keyError "symbol") := rfl

/-- Claim C8 (amended): the ranker does not skip malformed pool entries —
one missing `symbol`/`project`/`chain`, or with a non-string symbol, raises
(`KeyError`/`TypeError`/`AttributeError`).  It tolerates only missing
`apy`/`tvlUsd` keys, which `.get` defaults to 0; over pool lists whose
entries are dicts with a string `symbol`, `project` and `chain` present, and
`apy` absent or numeric, it always returns a ranked list without error. -/
theorem c8_wf_pools_ok (tok : String) (pools : List PyVal) (n : Nat)
    (hwf : ∀ p ∈ pools, wfPool p = true) :
    ∃ out, get_alternatives_for_token tok (.dict [("data", .list pools)]) n =
      .ok out := by
  have hwfSel : ∀ p ∈ pools, wfPoolSel p = true := by
    intro p hp
    have h := hwf p hp
    simp [wfPool] at h
    exact h.1
  have hsel := selectAlts_wf (pySplit tok '/') pools hwfSel
  have hnum : (pools.filterMap (selProj (pySplit tok '/'))).all
      (fun a => (pyNum a.apy).isSome) = true := by
    rw [List.all_eq_true]
    intro a ha
    obtain ⟨p, hp, hsp⟩ := List.mem_filterMap.mp ha
    exact selProj_apy_numeric _ (hwf p hp) hsp
  exact ⟨((pools.filterMap (selProj (pySplit tok '/'))).mergeSort
      apyGe).take n,
    by simp [get_alternatives_for_token, selection_data, hsel,
      sortTake_eq _ _ hnum, bind, Except.bind]⟩

/-- Witness for the amended C8 over a pool list with a missing (defaulted)
`apy`. -/
theorem c8_wf_pools_ok_witness :
    (∀ p ∈ [PyVal.dict [("symbol", PyVal.str "ETH-USDC"),
        ("project", PyVal.str "uniswap"), ("chain", PyVal.str "eth")]],
      wfPool p = true) ∧
    ∃ out, get_alternatives_for_token "ETH" (.dict [("data", .list
      [.dict [("symbol", .str "ETH-USDC"), ("project", .str "uniswap"),
        ("chain", .str "eth")]])]) 3 = .ok out :=
  ⟨by decide, c8_wf_pools_ok "ETH" _ 3 (by decide)⟩

/-- Claim C10: when some component of the query split on "/" is the empty
string (empty query, trailing "/", ...), every well-formed pool matches, and
the ranker returns the top-`n` of the whole projected pool list under the
stable descending apy sort. -/
theorem c10_empty_token_matches_all (tok : String) (pools : List PyVal)
    (n : Nat) (hwf : ∀ p ∈ pools, wfPool p = true)
    (hempty : "" ∈ pySplit tok '/') :
    get_alternatives_for_token tok (.dict [("data", .list pools)]) n =
      .ok (((pools.map poolProjV).mergeSort apyGe).take n) := by
  have hwfSel : ∀ p ∈ pools, wfPoolSel p = true := by
    intro p hp
    have h := hwf p hp
    simp [wfPool] at h
    exact h.1
  have hall : ∀ p ∈ pools, selProj (pySplit tok '/') p =
      some (poolProjV p) := by
    intro p hp
    obtain ⟨kvs, sym, rfl, hsym, -⟩ := poolAlt_wf (pySplit tok '/')
      (hwfSel p hp)
    have hmatch : symMatch (pySplit tok '/') sym = true := by
      rw [symMatch, List.any_eq_true]
      exact ⟨"", hempty, hasSub_nil _⟩
    simp [selProj, hsym, hmatch, poolProjV]
  have hsel := selectAlts_wf (pySplit tok '/') pools hwfSel
  rw [filterMap_eq_map_of_mem _ poolProjV pools hall] at hsel
  have hnum : (pools.map poolProjV).all
      (fun a => (pyNum a.apy).isSome) = true := by
    rw [List.all_eq_true]
    intro a ha
    obtain ⟨p, hp, rfl⟩ := List.mem_map.mp ha
    exact selProj_apy_numeric _ (hwf p hp) (hall p hp)
  simp [get_alternatives_for_token, selection_data, hsel,
    sortTake_eq _ _ hnum, bind, Except.bind]

/-- Witness for C10 with the empty query over a one-pool list. -/
theorem c10_empty_token_matches_all_witness :
    (∀ p ∈ [PyVal.dict [("symbol", PyVal.str "BTC"),
        ("project", PyVal.str "aave"), ("chain", PyVal.str "eth"),
        ("apy", PyVal.int 3)]], wfPool p = true) ∧
    "" ∈ pySplit "" '/' ∧
    get_alternatives_for_token "" (.dict [("data", .list
      [.dict [("symbol", .str "BTC"), ("project", .str "aave"),
        ("chain", .str "eth"), ("apy", .int 3)]])]) 2 =
      .ok ((([PyVal.dict [("symbol", .str "BTC"), ("project", .str "aave"),
        ("chain", .str "eth"),
        ("apy", .int 3)]].map poolProjV).mergeSort apyGe).take 2) :=
  ⟨by decide, by decide,
    c10_empty_token_matches_all "" _ 2 (by decide) (by decide)⟩
